import Mathlib

/-
  Verification development for the Airport Code Lookup System.

  Shallow embedding of the repository's core: the ETL record/index builder
  (extended_data.py), the search engine (smart_search.py) with its
  difflib-based fuzzy matcher, the loader, and the geodesic distance
  function described by the design document (its implementing file is not
  part of the provided sources, so it is modelled from the document).

  Python strings are modelled as lists of characters; Python dicts as
  association lists with insertion-order iteration and replace-in-place
  update, matching CPython's ordered dicts.  Printed console output of
  search_by_code is modelled as an explicit second component of its result.
-/

set_option maxRecDepth 4000

namespace AirportSystem

abbrev Str := List Char

/-- Python str.strip(): remove leading and trailing whitespace. -/
def pyStrip (s : Str) : Str :=
  ((s.dropWhile Char.isWhitespace).reverse.dropWhile Char.isWhitespace).reverse

/-- Python str.strip('"'): remove leading and trailing double-quote characters. -/
def stripQuotes (s : Str) : Str :=
  ((s.dropWhile (· = '"')).reverse.dropWhile (· = '"')).reverse

/-- Python str.upper() (ASCII range, which covers the data used by the system). -/
def pyUpper (s : Str) : Str := s.map Char.toUpper

/-- Python str.lower() (ASCII range). -/
def pyLower (s : Str) : Str := s.map Char.toLower

/-- Python str.isalpha(): non-empty and every character alphabetic. -/
def pyIsalpha (s : Str) : Bool := !s.isEmpty && s.all Char.isAlpha

/-- Python str.isdigit(): non-empty and every character a digit. -/
def pyIsdigit (s : Str) : Bool := !s.isEmpty && s.all Char.isDigit

/-- Python int(...) on an all-digit string. -/
def pyInt (s : Str) : Nat := s.foldl (fun acc c => 10 * acc + (c.toNat - 48)) 0

/-- Fraction digits of a decimal literal, folded into a rational. -/
def decDigits (s : Str) : ℚ :=
  (s.foldr (fun c acc => ((c.toNat - 48 : ℕ) + acc) / 10) 0)

/-- Python float(...) restricted to plain signed decimal literals, the shape
the OpenFlights feed uses; value is represented exactly as a rational. -/
def pyFloat (s : Str) : ℚ :=
  match s with
  | '-' :: rest =>
    -(pyInt (rest.takeWhile Char.isDigit) +
       decDigits ((rest.dropWhile Char.isDigit).drop 1))
  | _ =>
    pyInt (s.takeWhile Char.isDigit) +
      decDigits ((s.dropWhile Char.isDigit).drop 1)

/-- Python `needle in hay` prefix test helper. -/
def leadsWith : Str → Str → Bool
  | [], _ => true
  | _ :: _, [] => false
  | a :: as, b :: bs => a = b && leadsWith as bs

/-- Python substring containment `needle in hay`. -/
def containsSub (needle : Str) : Str → Bool
  | [] => needle.isEmpty
  | c :: rest => leadsWith needle (c :: rest) || containsSub needle rest

/-- Python string `<` comparison: lexicographic on code points. -/
def strLt : Str → Str → Bool
  | [], [] => false
  | [], _ :: _ => true
  | _ :: _, [] => false
  | a :: as, b :: bs => if a = b then strLt as bs else decide (a < b)

/-- Ordered-dict lookup (CPython dict `d[k]` / `k in d`). -/
def dictGet? {V : Type} (k : Str) : List (Str × V) → Option V
  | [] => none
  | (k', v) :: rest => if k' = k then some v else dictGet? k rest

/-- Ordered-dict assignment `d[k] = v`: replace in place, else append
(CPython dicts keep the original key position on overwrite). -/
def dictInsert {V : Type} (k : Str) (v : V) : List (Str × V) → List (Str × V)
  | [] => [(k, v)]
  | (k', v') :: rest =>
    if k' = k then (k, v) :: rest else (k', v') :: dictInsert k v rest

/-- defaultdict(list) `d[k].append(v)`. -/
def dictAppend {V : Type} (k : Str) (v : V) : List (Str × List V) → List (Str × List V)
  | [] => [(k, [v])]
  | (k', vs) :: rest =>
    if k' = k then (k', vs ++ [v]) :: rest else (k', vs) :: dictAppend k v rest

/-- Concatenation of a list of lists (used to state loop-append equalities). -/
def concatAll {α : Type} : List (List α) → List α
  | [] => []
  | l :: ls => l ++ concatAll ls

/-- AirportRecord: the dictionary built by process_airport_data
(extended_data.py), one field per key. -/
structure Airport where
  id : Nat
  name : Str
  city : Str
  country : Str
  iata : Str
  icao : Str
  latitude : ℚ
  longitude : ℚ
  elevation : Nat
  timezone : Str
  type : Str
  source : Str
deriving DecidableEq

/- ------------------------------------------------------------------
   Fuzzy matcher: difflib.get_close_matches / SequenceMatcher (no junk,
   autojunk never firing on the short keys the system passes in).
   ------------------------------------------------------------------ -/

/-- Length of the common prefix run of two strings
(the length of the matching block starting at a given pair of offsets). -/
def runLen : Str → Str → Nat
  | a :: as, b :: bs => if a = b then runLen as bs + 1 else 0
  | _, _ => 0

/-- SequenceMatcher.find_longest_match on whole strings (no junk): the
longest matching block, earliest in `a` then earliest in `b` on ties,
returned as (start in a, start in b, length). -/
def flm (a b : Str) : Nat × Nat × Nat :=
  (List.range a.length).foldl (fun best i =>
    (List.range b.length).foldl (fun best j =>
      let k := runLen (a.drop i) (b.drop j)
      if best.2.2 < k then (i, j, k) else best) best) (0, 0, 0)

/-- Total matched characters over all matching blocks
(SequenceMatcher.get_matching_blocks recursion).  The fuel argument only
drives structural termination; `matchesSumAux_fuel` below shows any fuel
at least `a.length` computes the same value, so `matchesSum` is the
fuel-free recursion of the source. -/
def matchesSumAux : Nat → Str → Str → Nat
  | 0, _, _ => 0
  | fuel + 1, a, b =>
    let t := flm a b
    if 0 < t.2.2 then
      t.2.2 + matchesSumAux fuel (a.take t.1) (b.take t.2.1) +
        matchesSumAux fuel (a.drop (t.1 + t.2.2)) (b.drop (t.2.1 + t.2.2))
    else 0

def matchesSum (a b : Str) : Nat := matchesSumAux a.length a b

/-- A non-negative fraction num/den, the exact value of a similarity score
(difflib computes the float 2*M/T; equality and order of those floats
coincide with the exact fractions at the tiny sizes involved, so the
fraction is the faithful exact model). -/
abbrev Frac := Nat × Nat

/-- Exact value of a fraction as a rational. -/
def fracVal (p : Frac) : ℚ := (p.1 : ℚ) / p.2

/-- Order on score fractions by cross-multiplication
(positive denominators throughout). -/
def fracLe (p q : Frac) : Prop := p.1 * q.2 ≤ q.1 * p.2

def fracLt (p q : Frac) : Prop := p.1 * q.2 < q.1 * p.2

/-- Value equality of score fractions (Python compares the float values,
so 4/6 and 2/3 are the same score). -/
def fracEq (p q : Frac) : Prop := p.1 * q.2 = q.1 * p.2

instance (p q : Frac) : Decidable (fracLe p q) := by unfold fracLe; infer_instance
instance (p q : Frac) : Decidable (fracLt p q) := by unfold fracLt; infer_instance
instance (p q : Frac) : Decidable (fracEq p q) := by unfold fracEq; infer_instance

/-- difflib._calculate_ratio: 2*M/T, and 1 when T = 0. -/
def calcRatio (m t : Nat) : Frac :=
  if t = 0 then (1, 1) else (2 * m, t)

/-- SequenceMatcher(None, a, b).ratio() as an exact fraction. -/
def seqRatio (a b : Str) : Frac := calcRatio (matchesSum a b) (a.length + b.length)

/-- Python tuple comparison (score, string) > (score, string): floats first,
strings lexicographically on ties. -/
def tupGt (p q : Frac × Str) : Prop :=
  fracLt q.1 p.1 ∨ (fracEq p.1 q.1 ∧ strLt q.2 p.2 = true)

instance (p q : Frac × Str) : Decidable (tupGt p q) := by
  unfold tupGt; infer_instance

/-- Insertion step of descending sort by (score, string). -/
def insDesc (r : Frac × Str) : List (Frac × Str) → List (Frac × Str)
  | [] => [r]
  | y :: ys => if tupGt y r then y :: insDesc r ys else r :: y :: ys

/-- Descending sort by (score, string); with the following take this models
`heapq.nlargest(n, result)` (pairs comparing equal have equal score values
and equal strings, so stability cannot change the output strings). -/
def sortDesc : List (Frac × Str) → List (Frac × Str)
  | [] => []
  | x :: xs => insDesc x (sortDesc xs)

/-- difflib.get_close_matches(word, possibilities, n, cutoff).  The three
chained ratio tests of the source collapse to the final one because
quick_ratio and real_quick_ratio are documented upper bounds of ratio. -/
def getCloseMatches (word : Str) (possibilities : List Str) (n : Nat) (cutoff : Frac) :
    List Str :=
  let scored := possibilities.filterMap fun x =>
    if fracLe cutoff (seqRatio x word) then some (seqRatio x word, x) else none
  ((sortDesc scored).take n).map Prod.snd

/- ------------------------------------------------------------------
   extended_data.py: process_airport_data and create_search_indexes.
   ------------------------------------------------------------------ -/

/-- The airport dictionary built from one raw CSV row
(process_airport_data, extended_data.py). -/
def rowToAirport (row : List Str) : Airport :=
  { id := if pyIsdigit (row.getD 0 []) then pyInt (row.getD 0 []) else 0
    name := stripQuotes (row.getD 1 [])
    city := stripQuotes (row.getD 2 [])
    country := stripQuotes (row.getD 3 [])
    iata := stripQuotes (row.getD 4 [])
    icao := stripQuotes (row.getD 5 [])
    latitude := if row.getD 6 [] ≠ [] then pyFloat (row.getD 6 []) else 0
    longitude := if row.getD 7 [] ≠ [] then pyFloat (row.getD 7 []) else 0
    elevation := if pyIsdigit (row.getD 8 []) then pyInt (row.getD 8 []) else 0
    timezone := stripQuotes (row.getD 11 [])
    type := stripQuotes (row.getD 12 [])
    source := stripQuotes (row.getD 13 []) }

/-- process_airport_data: keep rows of at least 14 fields whose parsed
record has a truthy IATA code of length exactly 3; everything else is
skipped, never an error.  The side sets of country and city names the
source also accumulates are Python sets with unspecified iteration order
and are not consumed by any claim, so they are not modelled. -/
def processAirportData (rows : List (List Str)) : List Airport :=
  rows.foldl (fun airports row =>
    if 14 ≤ row.length then
      let airport := rowToAirport row
      if airport.iata ≠ [] ∧ airport.iata.length = 3 then airports ++ [airport]
      else airports
    else airports) []

/-- IATA index: dict comprehension keyed by iata, records with falsy
(empty) iata skipped; later records overwrite earlier ones. -/
def iataIndexOf (airports : List Airport) : List (Str × Airport) :=
  airports.foldl (fun d a => if !a.iata.isEmpty then dictInsert a.iata a d else d) []

/-- ICAO index: same shape keyed by icao. -/
def icaoIndexOf (airports : List Airport) : List (Str × Airport) :=
  airports.foldl (fun d a => if !a.icao.isEmpty then dictInsert a.icao a d else d) []

/-- The composite "city, country" key. -/
def cityKey (a : Airport) : Str := a.city ++ (',' :: ' ' :: []) ++ a.country

/-- City index: defaultdict(list) keyed by the composite city key. -/
def cityIndexOf (airports : List Airport) : List (Str × List Airport) :=
  airports.foldl (fun d a => dictAppend (cityKey a) a d) []

/-- Country index: defaultdict(list) keyed by country. -/
def countryIndexOf (airports : List Airport) : List (Str × List Airport) :=
  airports.foldl (fun d a => dictAppend a.country a d) []

/-- The four mappings produced by create_search_indexes. -/
structure Indexes where
  iata_index : List (Str × Airport)
  icao_index : List (Str × Airport)
  city_index : List (Str × List Airport)
  country_index : List (Str × List Airport)
deriving DecidableEq

/-- create_search_indexes (extended_data.py): pure construction of the four
mappings from the record list (file serialization, which round-trips dicts
preserving order, is identity in the model). -/
def createSearchIndexes (airports : List Airport) : Indexes :=
  { iata_index := iataIndexOf airports
    icao_index := icaoIndexOf airports
    city_index := cityIndexOf airports
    country_index := countryIndexOf airports }

/- ------------------------------------------------------------------
   smart_search.py: the AirportSearch engine.
   ------------------------------------------------------------------ -/

/-- The loaded state of an AirportSearch instance. -/
structure SearchState where
  airports : List Airport
  iata_index : List (Str × Airport)
  icao_index : List (Str × Airport)
  city_index : List (Str × List Airport)
  country_index : List (Str × List Airport)
deriving DecidableEq

/-- An AirportSearch whose index files were produced by
create_search_indexes over the given record list. -/
def mkAirportSearch (airports : List Airport) : SearchState :=
  { airports := airports
    iata_index := iataIndexOf airports
    icao_index := icaoIndexOf airports
    city_index := cityIndexOf airports
    country_index := countryIndexOf airports }

/-- search_by_code, with the console suggestion printout modelled as the
second component: (returned match list, printed suggestion list).
The source prints the suggestions on a miss and always returns []. -/
def searchByCodeOut (S : SearchState) (code : Str) : List Airport × List Str :=
  let c := pyStrip (pyUpper code)
  match (if c.length = 3 then dictGet? c S.iata_index else none) with
  | some a => ([a], [])
  | none =>
    match (if c.length = 4 then dictGet? c S.icao_index else none) with
    | some a => ([a], [])
    | none =>
      ([], getCloseMatches c
            (S.iata_index.map Prod.fst ++ S.icao_index.map Prod.fst) 5 (3, 5))

/-- The value search_by_code returns to its caller. -/
def searchByCode (S : SearchState) (code : Str) : List Airport :=
  (searchByCodeOut S code).1

/-- The exact-substring pass of search_by_city: union of every bucket whose
key contains the query case-insensitively, in index order. -/
def cityExact (S : SearchState) (c : Str) : List Airport :=
  S.city_index.foldl (fun acc kv =>
    if containsSub (pyLower c) (pyLower kv.1) then acc ++ kv.2 else acc) []

/-- search_by_city: exact substring pass, then fuzzy fallback over the city
keys (n=10, cutoff 0.6) unioning the matched buckets. -/
def searchByCity (S : SearchState) (cityName : Str) : List Airport :=
  let c := pyStrip cityName
  let results := cityExact S c
  if results = [] then
    (getCloseMatches c (S.city_index.map Prod.fst) 10 (3, 5)).foldl
      (fun acc m => acc ++ (dictGet? m S.city_index).getD []) []
  else results

/-- search_by_country: exact case-sensitive hit returns the whole bucket;
otherwise fuzzy match over country keys (n=3, cutoff 0.6) and union the
buckets of every returned match. -/
def searchByCountry (S : SearchState) (countryName : Str) : List Airport :=
  let c := pyStrip countryName
  match dictGet? c S.country_index with
  | some airports => airports
  | none =>
    (getCloseMatches c (S.country_index.map Prod.fst) 3 (3, 5)).foldl
      (fun acc m => acc ++ (dictGet? m S.country_index).getD []) []

/-- search_by_name: case-insensitive substring scan over every record's
display name, in store order, no limit. -/
def searchByName (S : SearchState) (airportName : Str) : List Airport :=
  let n := pyStrip (pyLower airportName)
  S.airports.foldl (fun acc a =>
    if containsSub n (pyLower a.name) then acc ++ [a] else acc) []

/-- smart_search: the strategy chain.  Empty trimmed query short-circuits;
code lookup only for 3/4-letter alphabetic queries; first non-empty result
wins; otherwise []. -/
def smartSearch (S : SearchState) (query : Str) : List Airport :=
  let q := pyStrip query
  if q = [] then []
  else if ((q.length = 3 ∨ q.length = 4) ∧ pyIsalpha q = true) ∧
      searchByCode S q ≠ [] then
    searchByCode S q
  else if searchByCity S q ≠ [] then searchByCity S q
  else if searchByCountry S q ≠ [] then searchByCountry S q
  else if searchByName S q ≠ [] then searchByName S q
  else []

/-- Insertion step of the stable ascending sort by city used by
get_country_airports (Python sorted with key=city). -/
def insCity (a : Airport) : List Airport → List Airport
  | [] => [a]
  | b :: bs => if strLt b.city a.city then b :: insCity a bs else a :: b :: bs

/-- Python sorted(airports, key=city): stable ascending by city name.  A
stable sort's output is unique, so insertion sort is the same function. -/
def sortByCity (l : List Airport) : List Airport := l.foldr insCity []

/-- get_country_airports: exact country hit sorted by city, else bucket of
the single top fuzzy country match (n=1) sorted by city, else []. -/
def getCountryAirports (S : SearchState) (countryName : Str) : List Airport :=
  match dictGet? countryName S.country_index with
  | some airports => sortByCity airports
  | none =>
    match getCloseMatches countryName (S.country_index.map Prod.fst) 1 (3, 5) with
    | m :: _ => sortByCity ((dictGet? m S.country_index).getD [])
    | [] => []

/- ------------------------------------------------------------------
   load_data (smart_search.py): the five JSON files, any FileNotFoundError
   or other exception prints a message and calls exit(1).
   ------------------------------------------------------------------ -/

/-- The five data files as present-or-absent parsed contents. -/
structure DataFiles where
  airport_data : Option (List Airport)
  iata_file : Option (List (Str × Airport))
  icao_file : Option (List (Str × Airport))
  city_file : Option (List (Str × List Airport))
  country_file : Option (List (Str × List Airport))

/-- Outcome of running load_data: either a fully loaded state, or the
process terminated through exit(code). -/
inductive LoadOutcome where
  | ok (s : SearchState)
  | exited (code : Nat)
deriving DecidableEq

/-- load_data: open the five files in order inside one try block; a missing
file raises FileNotFoundError, whose handler prints and calls exit(1). -/
def load_data (fs : DataFiles) : LoadOutcome :=
  match fs.airport_data, fs.iata_file, fs.icao_file, fs.city_file, fs.country_file with
  | some airports, some ia, some ic, some ci, some co =>
    .ok { airports := airports, iata_index := ia, icao_index := ic,
          city_index := ci, country_index := co }
  | _, _, _, _, _ => .exited 1

/-- The filesystem with no data files present. -/
def emptyFiles : DataFiles :=
  { airport_data := none, iata_file := none, icao_file := none,
    city_file := none, country_file := none }

/-- Modelled from the spec: the load contract of section 4.1/7, under which
a missing backing dataset yields a constructed LoadError value returned to
the caller.  Stated here only to make the divergence from load_data
explicit. -/
inductive LoadError where
  | missingSource
  | malformed
deriving DecidableEq

/-- Modelled from the spec: load as the spec describes it — an Except value,
never a process exit. -/
def loadAsSpecified (fs : DataFiles) : Except LoadError SearchState :=
  match fs.airport_data, fs.iata_file, fs.icao_file, fs.city_file, fs.country_file with
  | some airports, some ia, some ic, some ci, some co =>
    .ok { airports := airports, iata_index := ia, icao_index := ic,
          city_index := ci, country_index := co }
  | _, _, _, _, _ => .error .missingSource

/- ------------------------------------------------------------------
   Geo engine.  Modelled from the spec: the implementing module
   (advanced_features.py) is not among the provided sources; section 4.5
   specifies the haversine great-circle formula on latitude/longitude in
   degrees with Earth radius 6371 km and miles = km * 0.621371.
   ------------------------------------------------------------------ -/

/-- Modelled from the spec: degrees to radians. -/
noncomputable def toRadians (deg : ℝ) : ℝ := deg * Real.pi / 180

/-- Modelled from the spec: haversine great-circle distance in km between
two (latitude, longitude) pairs in degrees, Earth radius 6371 km. -/
noncomputable def haversineKm (lat1 lon1 lat2 lon2 : ℝ) : ℝ :=
  2 * 6371 *
    Real.arcsin (Real.sqrt
      (Real.sin (toRadians (lat2 - lat1) / 2) ^ 2 +
        Real.cos (toRadians lat1) * Real.cos (toRadians lat2) *
          Real.sin (toRadians (lon2 - lon1) / 2) ^ 2))

/-- Modelled from the spec: distance(a, b) -> (km, miles), with
miles = km * 0.621371. -/
noncomputable def distance (a b : Airport) : ℝ × ℝ :=
  let km := haversineKm (a.latitude : ℝ) (a.longitude : ℝ) (b.latitude : ℝ) (b.longitude : ℝ)
  (km, km * 0.621371)

/- ------------------------------------------------------------------
   Claim-side comparison definitions and concrete sample data.
   ------------------------------------------------------------------ -/

/-- The precedence chain as the design document words it: the result of the
first strategy in the list that yields a non-empty result. -/
def firstNonEmpty : List (List Airport) → List Airport
  | [] => []
  | r :: rs => if r = [] then firstNonEmpty rs else r

/-- Sample record used to instantiate the theorems on concrete data. -/
def jfkW : Airport :=
  { id := 1, name := "John F Kennedy Intl".toList, city := "New York".toList,
    country := "United States".toList, iata := "JFK".toList,
    icao := "KJFK".toList, latitude := 40, longitude := -73, elevation := 13,
    timezone := "America/New_York".toList, type := "airport".toList,
    source := "OurAirports".toList }

/-- Sample record in country "abcdx" (fuzzy-collision setup). -/
def aptX : Airport :=
  { id := 2, name := "X Field".toList, city := "Xtown".toList,
    country := "abcdx".toList, iata := "XXX".toList, icao := "XXXX".toList,
    latitude := 10, longitude := 20, elevation := 5,
    timezone := "Zone/X".toList, type := "airport".toList,
    source := "OurAirports".toList }

/-- Sample record in country "abcdy" (fuzzy-collision setup). -/
def aptY : Airport :=
  { id := 3, name := "Y Field".toList, city := "Ytown".toList,
    country := "abcdy".toList, iata := "YYY".toList, icao := "YYYY".toList,
    latitude := 30, longitude := 40, elevation := 6,
    timezone := "Zone/Y".toList, type := "airport".toList,
    source := "OurAirports".toList }

/-- Sample record whose city key "abcq, z" precedes aptCD's in the index
but fuzzy-ranks below it against the query abcdz. -/
def aptCQ : Airport :=
  { id := 4, name := "CQ Field".toList, city := "abcq".toList,
    country := "z".toList, iata := "CQA".toList, icao := "CQAA".toList,
    latitude := 1, longitude := 2, elevation := 7,
    timezone := "Zone/CQ".toList, type := "airport".toList,
    source := "OurAirports".toList }

/-- Sample record whose city key "abcd, z" follows aptCQ's in the index
but fuzzy-ranks above it against the query abcdz. -/
def aptCD : Airport :=
  { id := 5, name := "CD Field".toList, city := "abcd".toList,
    country := "z".toList, iata := "CDA".toList, icao := "CDAA".toList,
    latitude := 3, longitude := 4, elevation := 8,
    timezone := "Zone/CD".toList, type := "airport".toList,
    source := "OurAirports".toList }

/-- A 14-field raw row whose IATA code has length 4. -/
def rowLenFour : List Str :=
  ["1", "Test Airport", "Testville", "Testland", "ABCD", "TSTA", "1.0", "2.0",
    "10", "-5", "A", "Zone/T", "airport", "Src"].map String.toList

/-- A 14-field raw row whose IATA code is 3 characters but not alphabetic. -/
def rowNonAlpha : List Str :=
  ["2", "Num Airport", "Numville", "Numland", "1X2", "NUMA", "3.0", "4.0",
    "20", "-5", "A", "Zone/N", "airport", "Src"].map String.toList

/- ------------------------------------------------------------------
   Helper lemmas.
   ------------------------------------------------------------------ -/

theorem foldlInv {α β : Type} (P : β → Prop) (f : β → α → β) :
    ∀ (l : List α) (init : β), P init → (∀ b a, a ∈ l → P b → P (f b a)) →
      P (l.foldl f init) := by
  intro l
  induction l with
  | nil => intro init h _; exact h
  | cons a rest ih =>
    intro init h hstep
    exact ih (f init a) (hstep init a (List.mem_cons_self a rest) h)
      (fun b x hx hb => hstep b x (List.mem_cons_of_mem a hx) hb)

theorem strLt_asymm : ∀ {x y : Str}, strLt x y = true → strLt y x = false := by
  intro x
  induction x with
  | nil => intro y h; cases y with
    | nil => simp [strLt] at h
    | cons b bs => simp [strLt]
  | cons a as ih =>
    intro y h
    cases y with
    | nil => simp [strLt] at h
    | cons b bs =>
      simp only [strLt] at h ⊢
      by_cases hab : a = b
      · subst hab; simp only [if_pos rfl] at h ⊢; exact ih h
      · rw [if_neg hab] at h
        rw [if_neg (fun hba => hab hba.symm)]
        simp only [decide_eq_true_eq] at h
        simp only [decide_eq_false_iff_not]
        exact not_lt_of_lt h

theorem strLt_trans : ∀ {x y z : Str}, strLt x y = true → strLt y z = true →
    strLt x z = true := by
  intro x
  induction x with
  | nil =>
    intro y z hxy hyz
    cases y with
    | nil => simp [strLt] at hxy
    | cons b bs =>
      cases z with
      | nil => simp [strLt] at hyz
      | cons c cs => simp [strLt]
  | cons a as ih =>
    intro y z hxy hyz
    cases y with
    | nil => simp [strLt] at hxy
    | cons b bs =>
      cases z with
      | nil => simp [strLt] at hyz
      | cons c cs =>
        simp only [strLt] at hxy hyz ⊢
        by_cases hab : a = b
        · subst hab
          rw [if_pos rfl] at hxy
          by_cases hbc : a = c
          · subst hbc
            rw [if_pos rfl] at hyz ⊢
            exact ih hxy hyz
          · rw [if_neg hbc] at hyz ⊢; exact hyz
        · rw [if_neg hab] at hxy
          simp only [decide_eq_true_eq] at hxy
          by_cases hbc : b = c
          · subst hbc; rw [if_neg hab]; simpa using hxy
          · rw [if_neg hbc] at hyz
            simp only [decide_eq_true_eq] at hyz
            have hac : a ≠ c := fun h => absurd (h ▸ hxy) (not_lt_of_lt hyz)
            rw [if_neg hac]
            simp only [decide_eq_true_eq]
            exact lt_trans hxy hyz

theorem strLt_total_eq : ∀ {x y : Str}, strLt x y = false → strLt y x = false →
    x = y := by
  intro x
  induction x with
  | nil => intro y hxy _; cases y with
    | nil => rfl
    | cons b bs => simp [strLt] at hxy
  | cons a as ih =>
    intro y hxy hyx
    cases y with
    | nil => simp [strLt] at hyx
    | cons b bs =>
      simp only [strLt] at hxy hyx
      by_cases hab : a = b
      · subst hab
        rw [if_pos rfl] at hxy hyx
        rw [ih hxy hyx]
      · rw [if_neg hab] at hxy
        rw [if_neg (fun h => hab h.symm)] at hyx
        simp only [decide_eq_false_iff_not] at hxy hyx
        exact absurd (le_antisymm (not_lt.mp hyx) (not_lt.mp hxy)) hab

theorem fracLe_iff {p q : Frac} (hp : 0 < p.2) (hq : 0 < q.2) :
    fracLe p q ↔ fracVal p ≤ fracVal q := by
  unfold fracLe fracVal
  rw [div_le_div_iff₀ (by exact_mod_cast hp) (by exact_mod_cast hq)]
  exact_mod_cast Iff.rfl

theorem fracLt_iff {p q : Frac} (hp : 0 < p.2) (hq : 0 < q.2) :
    fracLt p q ↔ fracVal p < fracVal q := by
  unfold fracLt fracVal
  rw [div_lt_div_iff₀ (by exact_mod_cast hp) (by exact_mod_cast hq)]
  exact_mod_cast Iff.rfl

theorem fracEq_iff {p q : Frac} (hp : 0 < p.2) (hq : 0 < q.2) :
    fracEq p q ↔ fracVal p = fracVal q := by
  unfold fracEq fracVal
  rw [div_eq_div_iff ((Nat.cast_pos.mpr hp).ne' : ((p.2 : ℚ)) ≠ 0)
    ((Nat.cast_pos.mpr hq).ne' : ((q.2 : ℚ)) ≠ 0)]
  exact_mod_cast Iff.rfl

/-- Positivity of the denominator of every ratio the matcher produces. -/
theorem seqRatio_den_pos (a b : Str) : 0 < (seqRatio a b).2 := by
  unfold seqRatio calcRatio
  by_cases h : a.length + b.length = 0
  · simp [h]
  · simp [h, Nat.pos_of_ne_zero h]

/-- Elements with positive score denominators. -/
def posDen (p : Frac × Str) : Prop := 0 < p.1.2

theorem tupGt_asymm {p q : Frac × Str} (hp : posDen p) (hq : posDen q) :
    tupGt p q → ¬ tupGt q p := by
  unfold tupGt
  rw [fracLt_iff hq hp, fracLt_iff hp hq, fracEq_iff hp hq, fracEq_iff hq hp]
  rintro (h | ⟨he, hs⟩) (h' | ⟨he', hs'⟩)
  · exact absurd h' (not_lt_of_lt h)
  · exact absurd he' (ne_of_lt h)
  · exact absurd he (ne_of_lt h')
  · rw [strLt_asymm hs'] at hs; exact Bool.false_ne_true hs

theorem tupGe_trans {p q r : Frac × Str} (hp : posDen p) (hq : posDen q)
    (hr : posDen r) (h1 : ¬ tupGt q p) (h2 : ¬ tupGt r q) : ¬ tupGt r p := by
  unfold tupGt at h1 h2 ⊢
  rw [fracLt_iff hp hq, fracEq_iff hq hp] at h1
  rw [fracLt_iff hq hr, fracEq_iff hr hq] at h2
  rw [fracLt_iff hp hr, fracEq_iff hr hp]
  push_neg at h1 h2 ⊢
  obtain ⟨h1v, h1s⟩ := h1
  obtain ⟨h2v, h2s⟩ := h2
  constructor
  · exact le_trans h2v h1v
  · intro hvr
    have hqp : fracVal q.1 = fracVal p.1 :=
      le_antisymm h1v (hvr ▸ h2v)
    have hrq : fracVal r.1 = fracVal q.1 := by rw [hvr, hqp]
    have hs1 : strLt p.2 q.2 = false := Bool.not_eq_true _ |>.mp (h1s hqp)
    have hs2 : strLt q.2 r.2 = false := Bool.not_eq_true _ |>.mp (h2s hrq)
    intro hpr
    cases hrq2 : strLt r.2 q.2 with
    | false =>
      have hqr : q.2 = r.2 := strLt_total_eq hs2 hrq2
      rw [← hqr, hs1] at hpr
      exact Bool.false_ne_true hpr
    | true =>
      have := strLt_trans hpr hrq2
      rw [hs1] at this
      exact Bool.false_ne_true this

theorem mem_insDesc {x r : Frac × Str} : ∀ {l : List (Frac × Str)},
    x ∈ insDesc r l ↔ x = r ∨ x ∈ l := by
  intro l
  induction l with
  | nil => simp [insDesc]
  | cons y ys ih =>
    simp only [insDesc]
    by_cases h : tupGt y r
    · rw [if_pos h]
      simp only [List.mem_cons, ih]
      tauto
    · rw [if_neg h]
      simp only [List.mem_cons]

theorem mem_sortDesc {x : Frac × Str} : ∀ {l : List (Frac × Str)},
    x ∈ sortDesc l ↔ x ∈ l := by
  intro l
  induction l with
  | nil => simp [sortDesc]
  | cons y ys ih =>
    simp only [sortDesc, mem_insDesc, List.mem_cons, ih]

theorem insDesc_pairwise {r : Frac × Str} : ∀ {l : List (Frac × Str)},
    posDen r → (∀ y ∈ l, posDen y) →
    l.Pairwise (fun p q => ¬ tupGt q p) →
    (insDesc r l).Pairwise (fun p q => ¬ tupGt q p) := by
  intro l
  induction l with
  | nil => intro _ _ _; simp [insDesc]
  | cons y ys ih =>
    intro hr hmem hpw
    have hy : posDen y := hmem y (List.mem_cons_self y ys)
    have hys : ∀ z ∈ ys, posDen z := fun z hz => hmem z (List.mem_cons_of_mem y hz)
    rw [List.pairwise_cons] at hpw
    obtain ⟨hyall, hpw_ys⟩ := hpw
    simp only [insDesc]
    by_cases h : tupGt y r
    · rw [if_pos h]
      rw [List.pairwise_cons]
      refine ⟨?_, ih hr hys hpw_ys⟩
      intro z hz
      rcases mem_insDesc.mp hz with hz | hz
      · subst hz; exact tupGt_asymm hy hr h
      · exact hyall z hz
    · rw [if_neg h]
      rw [List.pairwise_cons]
      refine ⟨?_, List.pairwise_cons.mpr ⟨hyall, hpw_ys⟩⟩
      intro z hz
      rcases List.mem_cons.mp hz with hz | hz
      · subst hz; exact h
      · exact tupGe_trans hr hy (hys z hz) h (hyall z hz)

theorem sortDesc_pairwise : ∀ {l : List (Frac × Str)},
    (∀ y ∈ l, posDen y) →
    (sortDesc l).Pairwise (fun p q => ¬ tupGt q p) := by
  intro l
  induction l with
  | nil => intro _; simp [sortDesc]
  | cons x xs ih =>
    intro hmem
    exact insDesc_pairwise (hmem x (List.mem_cons_self x xs))
      (fun y hy => hmem y (List.mem_cons_of_mem x (mem_sortDesc.mp hy)))
      (ih fun y hy => hmem y (List.mem_cons_of_mem x hy))

/-- Option alternative, for stating last-writer-wins with an initial dict. -/
def optOr {α : Type} : Option α → Option α → Option α
  | some a, _ => some a
  | none, b => b

theorem getLast?_cons' {α : Type} (a : α) (l : List α) :
    (a :: l).getLast? = optOr l.getLast? (some a) := by
  cases l with
  | nil => rfl
  | cons b bs =>
    rw [List.getLast?_cons_cons]
    cases h : (b :: bs).getLast? with
    | none => simp [List.getLast?_isSome] at h
    | some x => rfl

theorem getLast?_mem' {α : Type} : ∀ {l : List α} {a : α},
    l.getLast? = some a → a ∈ l := by
  intro l
  induction l with
  | nil => intro a h; simp [List.getLast?] at h
  | cons b bs ih =>
    intro a h
    cases bs with
    | nil =>
      simp only [List.getLast?_singleton, Option.some.injEq] at h
      simp [h]
    | cons c cs =>
      rw [List.getLast?_cons_cons] at h
      exact List.mem_cons_of_mem b (ih h)

theorem dictGet_insert {V : Type} (k k' : Str) (v : V) :
    ∀ (d : List (Str × V)),
      dictGet? k (dictInsert k' v d) =
        if k' = k then some v else dictGet? k d := by
  intro d
  induction d with
  | nil => simp [dictInsert, dictGet?]
  | cons kv rest ih =>
    obtain ⟨k₀, v₀⟩ := kv
    simp only [dictInsert]
    by_cases h0 : k₀ = k'
    · rw [if_pos h0]
      simp only [dictGet?]
      by_cases hk : k' = k
      · rw [if_pos hk, if_pos hk]
      · rw [if_neg hk, if_neg hk, if_neg (h0 ▸ hk)]
    · rw [if_neg h0]
      simp only [dictGet?]
      by_cases hk0 : k₀ = k
      · rw [if_pos hk0]
        rw [if_neg (fun h => h0 (hk0.trans h.symm) : ¬ k' = k)]
        rw [if_pos hk0]
      · rw [if_neg hk0, if_neg hk0, ih]

/-- Last-writer-wins for dict-comprehension index construction: looking up
k in the dict built by conditionally inserting each record keyed by `key`
finds the last record of the list passing the condition with key k, else
falls back to the initial dict. -/
theorem dictGet_foldl_insert {V : Type} [DecidableEq V] (key : V → Str) (p : V → Bool) :
    ∀ (l : List V) (d : List (Str × V)) (k : Str),
      dictGet? k (l.foldl (fun d a => if p a then dictInsert (key a) a d else d) d) =
        optOr ((l.filter fun a => p a && decide (key a = k)).getLast?) (dictGet? k d) := by
  intro l
  induction l with
  | nil => intro d k; simp [List.filter, optOr]
  | cons a rest ih =>
    intro d k
    rw [List.foldl_cons]
    rw [ih]
    by_cases hpa : p a = true
    · by_cases hka : key a = k
      · have : (a :: rest).filter (fun a => p a && decide (key a = k)) =
            a :: rest.filter (fun a => p a && decide (key a = k)) := by
          rw [List.filter_cons_of_pos (by simp [hpa, hka])]
        rw [this, getLast?_cons']
        rw [if_pos hpa, dictGet_insert, if_pos hka]
        cases (rest.filter fun a => p a && decide (key a = k)).getLast? with
        | none => simp [optOr]
        | some x => simp [optOr]
      · have : (a :: rest).filter (fun a => p a && decide (key a = k)) =
            rest.filter (fun a => p a && decide (key a = k)) := by
          rw [List.filter_cons_of_neg (by simp [hka])]
        rw [this, if_pos hpa, dictGet_insert, if_neg hka]
    · have : (a :: rest).filter (fun a => p a && decide (key a = k)) =
          rest.filter (fun a => p a && decide (key a = k)) := by
        rw [List.filter_cons_of_neg (by simp [hpa])]
      rw [this, if_neg hpa]

theorem runLen_le_left : ∀ (a b : Str), runLen a b ≤ a.length := by
  intro a
  induction a with
  | nil => intro b; cases b <;> simp [runLen]
  | cons x xs ih =>
    intro b
    cases b with
    | nil => simp [runLen]
    | cons y ys =>
      simp only [runLen, List.length_cons]
      by_cases h : x = y
      · rw [if_pos h]; exact Nat.succ_le_succ (ih ys)
      · rw [if_neg h]; exact Nat.zero_le _

theorem runLen_le_right : ∀ (a b : Str), runLen a b ≤ b.length := by
  intro a
  induction a with
  | nil => intro b; cases b <;> simp [runLen]
  | cons x xs ih =>
    intro b
    cases b with
    | nil => simp [runLen]
    | cons y ys =>
      simp only [runLen, List.length_cons]
      by_cases h : x = y
      · rw [if_pos h]; exact Nat.succ_le_succ (ih ys)
      · rw [if_neg h]; exact Nat.zero_le _

/-- The block reported by find_longest_match lies inside both strings. -/
theorem flm_bounds (a b : Str) :
    (flm a b).1 + (flm a b).2.2 ≤ a.length ∧
      (flm a b).2.1 + (flm a b).2.2 ≤ b.length := by
  unfold flm
  apply foldlInv (fun best : Nat × Nat × Nat =>
    best.1 + best.2.2 ≤ a.length ∧ best.2.1 + best.2.2 ≤ b.length)
  · simp
  · intro best i hi hbest
    apply foldlInv (fun best : Nat × Nat × Nat =>
      best.1 + best.2.2 ≤ a.length ∧ best.2.1 + best.2.2 ≤ b.length)
    · exact hbest
    · intro best' j hj hbest'
      by_cases h : best'.2.2 < runLen (a.drop i) (b.drop j)
      · rw [if_pos h]
        have hi' : i < a.length := List.mem_range.mp hi
        have hj' : j < b.length := List.mem_range.mp hj
        dsimp only
        constructor
        · have := runLen_le_left (a.drop i) (b.drop j)
          rw [List.length_drop] at this
          omega
        · have := runLen_le_right (a.drop i) (b.drop j)
          rw [List.length_drop] at this
          omega
      · rw [if_neg h]; exact hbest'

/-- Any fuel at least a.length computes the same matching total, so
`matchesSum` is the fuel-free recursion of the source. -/
theorem matchesSumAux_fuel : ∀ (f1 : Nat) (a b : Str) (f2 : Nat),
    a.length ≤ f1 → a.length ≤ f2 →
    matchesSumAux f1 a b = matchesSumAux f2 a b := by
  intro f1
  induction f1 with
  | zero =>
    intro a b f2 h1 _
    have ha : a = [] := List.length_eq_zero.mp (Nat.le_zero.mp h1)
    subst ha
    have hflm : flm [] b = (0, 0, 0) := by simp [flm]
    cases f2 with
    | zero => rfl
    | succ f2' => simp [matchesSumAux, hflm]
  | succ f1' ih =>
    intro a b f2 h1 h2
    cases f2 with
    | zero =>
      have ha : a = [] := List.length_eq_zero.mp (Nat.le_zero.mp h2)
      subst ha
      have hflm : flm [] b = (0, 0, 0) := by simp [flm]
      simp [matchesSumAux, hflm]
    | succ f2' =>
      simp only [matchesSumAux]
      obtain ⟨hba, hbb⟩ := flm_bounds a b
      by_cases h : 0 < (flm a b).2.2
      · rw [if_pos h, if_pos h]
        have htake : (a.take (flm a b).1).length ≤ f1' ∧
            (a.take (flm a b).1).length ≤ f2' := by
          rw [List.length_take]
          omega
        have hdrop : (a.drop ((flm a b).1 + (flm a b).2.2)).length ≤ f1' ∧
            (a.drop ((flm a b).1 + (flm a b).2.2)).length ≤ f2' := by
          rw [List.length_drop]
          omega
        rw [ih _ _ f2' htake.1 htake.2, ih _ _ f2' hdrop.1 hdrop.2]
      · rw [if_neg h, if_neg h]

/-- Loop-appending buckets under a filter equals flattening the matching
buckets in index order. -/
theorem foldl_cond_append {α β : Type} (p : α → Bool) (g : α → List β) :
    ∀ (l : List α) (acc : List β),
      l.foldl (fun acc x => if p x then acc ++ g x else acc) acc =
        acc ++ concatAll ((l.filter p).map g) := by
  intro l
  induction l with
  | nil => intro acc; simp [concatAll]
  | cons x xs ih =>
    intro acc
    rw [List.foldl_cons]
    by_cases h : p x = true
    · rw [if_pos h, ih, List.filter_cons_of_pos h, List.map_cons]
      simp [concatAll]
    · rw [if_neg h, ih, List.filter_cons_of_neg (by simp [h])]

/-- Loop-appending buckets equals flattening all the buckets in order. -/
theorem foldl_append_all {α β : Type} (g : α → List β) :
    ∀ (l : List α) (acc : List β),
      l.foldl (fun acc x => acc ++ g x) acc = acc ++ concatAll (l.map g) := by
  intro l
  induction l with
  | nil => intro acc; simp [concatAll]
  | cons x xs ih =>
    intro acc
    rw [List.foldl_cons, ih, List.map_cons]
    simp [concatAll]

theorem insCity_perm (a : Airport) : ∀ (l : List Airport),
    List.Perm (insCity a l) (a :: l) := by
  intro l
  induction l with
  | nil => simp [insCity]
  | cons b bs ih =>
    simp only [insCity]
    by_cases h : strLt b.city a.city = true
    · rw [if_pos h]
      exact ((ih).cons b).trans (List.Perm.swap a b bs)
    · rw [if_neg h]

theorem sortByCity_perm : ∀ (l : List Airport), List.Perm (sortByCity l) l := by
  intro l
  induction l with
  | nil => simp [sortByCity]
  | cons a as ih =>
    have : sortByCity (a :: as) = insCity a (sortByCity as) := rfl
    rw [this]
    exact (insCity_perm a (sortByCity as)).trans (ih.cons a)

theorem insCity_pairwise (a : Airport) : ∀ {l : List Airport},
    l.Pairwise (fun x y => strLt y.city x.city = false) →
    (insCity a l).Pairwise (fun x y => strLt y.city x.city = false) := by
  intro l
  induction l with
  | nil => intro _; simp [insCity]
  | cons b bs ih =>
    intro hpw
    rw [List.pairwise_cons] at hpw
    obtain ⟨hball, hpw_bs⟩ := hpw
    simp only [insCity]
    by_cases h : strLt b.city a.city = true
    · rw [if_pos h]
      rw [List.pairwise_cons]
      refine ⟨?_, ih hpw_bs⟩
      intro z hz
      have hz' := (List.Perm.mem_iff (insCity_perm a bs)).mp hz
      rcases List.mem_cons.mp hz' with hz' | hz'
      · subst hz'; exact strLt_asymm h
      · exact hball z hz'
    · rw [if_neg h]
      rw [List.pairwise_cons]
      refine ⟨?_, List.pairwise_cons.mpr ⟨hball, hpw_bs⟩⟩
      intro z hz
      rcases List.mem_cons.mp hz with hz | hz
      · subst hz
        exact Bool.not_eq_true _ |>.mp h
      · have hbz := hball z hz
        have hba : strLt b.city a.city = false := Bool.not_eq_true _ |>.mp h
        cases hza : strLt z.city a.city with
        | false => rfl
        | true =>
          exfalso
          cases hbz2 : strLt b.city z.city with
          | false =>
            have hzb_eq : z.city = b.city := strLt_total_eq hbz hbz2
            rw [hzb_eq, hba] at hza
            exact Bool.false_ne_true hza
          | true =>
            have hres := strLt_trans hbz2 hza
            rw [hba] at hres
            exact Bool.false_ne_true hres

theorem sortByCity_pairwise : ∀ (l : List Airport),
    (sortByCity l).Pairwise (fun x y => strLt y.city x.city = false) := by
  intro l
  induction l with
  | nil => simp [sortByCity]
  | cons a as ih =>
    exact insCity_pairwise a ih

/-- Every pair the matcher scores carries its own ratio and comes from the
candidate pool above the cutoff. -/
theorem gcm_scored_mem {word : Str} {poss : List Str} {cutoff : Frac}
    {p : Frac × Str}
    (hp : p ∈ poss.filterMap fun x =>
      if fracLe cutoff (seqRatio x word) then some (seqRatio x word, x) else none) :
    p.2 ∈ poss ∧ fracLe cutoff (seqRatio p.2 word) ∧ p.1 = seqRatio p.2 word := by
  rw [List.mem_filterMap] at hp
  obtain ⟨x, hx, hfx⟩ := hp
  by_cases h : fracLe cutoff (seqRatio x word)
  · rw [if_pos h] at hfx
    cases hfx
    exact ⟨hx, h, rfl⟩
  · rw [if_neg h] at hfx
    cases hfx

theorem gcm_mem {word : Str} {poss : List Str} {n : Nat} {cutoff : Frac}
    {x : Str} (hx : x ∈ getCloseMatches word poss n cutoff) :
    x ∈ poss ∧ fracLe cutoff (seqRatio x word) := by
  unfold getCloseMatches at hx
  rw [List.mem_map] at hx
  obtain ⟨p, hp, hpx⟩ := hx
  have hp' : p ∈ sortDesc (poss.filterMap fun x =>
      if fracLe cutoff (seqRatio x word) then some (seqRatio x word, x) else none) :=
    List.take_subset n _ hp
  have := gcm_scored_mem (mem_sortDesc.mp hp')
  rw [hpx] at this
  exact ⟨this.1, this.2.1⟩

theorem gcm_length_le (word : Str) (poss : List Str) (n : Nat) (cutoff : Frac) :
    (getCloseMatches word poss n cutoff).length ≤ n := by
  unfold getCloseMatches
  rw [List.length_map]
  exact List.length_take_le n _

theorem gcm_pairwise (word : Str) (poss : List Str) (n : Nat) (cutoff : Frac) :
    (getCloseMatches word poss n cutoff).Pairwise (fun x y =>
      fracLt (seqRatio y word) (seqRatio x word) ∨
        (fracEq (seqRatio x word) (seqRatio y word) ∧ strLt x y = false)) := by
  unfold getCloseMatches
  rw [List.pairwise_map]
  set scored := poss.filterMap fun x =>
    if fracLe cutoff (seqRatio x word) then some (seqRatio x word, x) else none with hscored
  have hpos : ∀ y ∈ scored, posDen y := by
    intro y hy
    have := gcm_scored_mem (hscored ▸ hy)
    unfold posDen
    rw [this.2.2]
    exact seqRatio_den_pos _ _
  have hpw : (sortDesc scored).Pairwise (fun p q => ¬ tupGt q p) :=
    sortDesc_pairwise hpos
  have hpw_take : ((sortDesc scored).take n).Pairwise (fun p q => ¬ tupGt q p) :=
    List.Pairwise.sublist (List.take_sublist n _) hpw
  refine hpw_take.imp_of_mem ?_
  intro p q hp hq hpq
  have hp' := gcm_scored_mem (mem_sortDesc.mp (List.take_subset n _ hp))
  have hq' := gcm_scored_mem (mem_sortDesc.mp (List.take_subset n _ hq))
  have hpd : 0 < (seqRatio p.2 word).2 := seqRatio_den_pos _ _
  have hqd : 0 < (seqRatio q.2 word).2 := seqRatio_den_pos _ _
  unfold tupGt at hpq
  rw [hp'.2.2, hq'.2.2] at hpq
  push_neg at hpq
  obtain ⟨h1, h2⟩ := hpq
  rw [fracLt_iff hpd hqd] at h1
  by_cases hv : fracEq (seqRatio p.2 word) (seqRatio q.2 word)
  · right
    refine ⟨hv, ?_⟩
    rw [fracEq_iff hpd hqd] at hv
    exact Bool.not_eq_true _ |>.mp (h2 ((fracEq_iff hqd hpd).mpr hv.symm))
  · left
    rw [fracLt_iff hqd hpd]
    rw [fracEq_iff hpd hqd] at hv
    exact lt_of_le_of_ne (not_lt.mp h1) (fun h => hv h.symm)

theorem optOr_none {α : Type} (x : Option α) : optOr x none = x := by
  cases x <;> rfl

/-- Primary-code index lookup is the last store record carrying that code. -/
theorem iataIndex_lookup (l : List Airport) (k : Str) :
    dictGet? k (iataIndexOf l) =
      (l.filter fun a => !a.iata.isEmpty && decide (a.iata = k)).getLast? := by
  have h := dictGet_foldl_insert (fun a : Airport => a.iata)
    (fun a : Airport => !a.iata.isEmpty) l [] k
  simpa [iataIndexOf, dictGet?, optOr_none] using h

/-- Secondary-code index lookup is the last store record carrying that code. -/
theorem icaoIndex_lookup (l : List Airport) (k : Str) :
    dictGet? k (icaoIndexOf l) =
      (l.filter fun a => !a.icao.isEmpty && decide (a.icao = k)).getLast? := by
  have h := dictGet_foldl_insert (fun a : Airport => a.icao)
    (fun a : Airport => !a.icao.isEmpty) l [] k
  simpa [icaoIndexOf, dictGet?, optOr_none] using h

theorem concatAll_map_singleton {α : Type} : ∀ (l : List α),
    concatAll (l.map fun a => [a]) = l := by
  intro l
  induction l with
  | nil => rfl
  | cons a as ih => simp [concatAll, ih]

theorem foldl_length_le {α : Type} (f : List Airport → α → List Airport)
    (hf : ∀ acc row, (f acc row).length ≤ acc.length + 1) :
    ∀ (rows : List α) (acc : List Airport),
      (rows.foldl f acc).length ≤ acc.length + rows.length := by
  intro rows
  induction rows with
  | nil => intro acc; simp
  | cons r rs ih =>
    intro acc
    rw [List.foldl_cons]
    calc (rs.foldl f (f acc r)).length ≤ (f acc r).length + rs.length := ih (f acc r)
      _ ≤ acc.length + 1 + rs.length := by
          exact Nat.add_le_add_right (hf acc r) rs.length
      _ = acc.length + (r :: rs).length := by simp [Nat.add_assoc, Nat.add_comm 1]

/- ------------------------------------------------------------------
   The claims.
   ------------------------------------------------------------------ -/

/-- C8: Index Set construction is a pure deterministic function of the
Record Store snapshot — rebuilding from the same snapshot yields identical
mapping contents — and when two records share a primary or secondary code
the index maps that code to the last such record in store order
(last-writer-wins, skipping records with an empty code, which the
comprehension filters out). -/
theorem index_build_last_writer_wins :
    ∀ (l : List Airport),
      createSearchIndexes l = createSearchIndexes l ∧
      (∀ k : Str, dictGet? k (createSearchIndexes l).iata_index =
        (l.filter fun a => !a.iata.isEmpty && decide (a.iata = k)).getLast?) ∧
      (∀ k : Str, dictGet? k (createSearchIndexes l).icao_index =
        (l.filter fun a => !a.icao.isEmpty && decide (a.icao = k)).getLast?) := by
  intro l
  refine ⟨rfl, ?_, ?_⟩
  · intro k
    exact iataIndex_lookup l k
  · intro k
    exact icaoIndex_lookup l k

/-- C1: for every record r in the store whose primary (IATA) code is a
valid 3-letter code (three alphabetic uppercase characters, hence also
whitespace-free) shared by no other record, the search entry point
smart_search applied to r's primary code returns exactly the singleton
[r]. -/
theorem search_unique_code_singleton
    (airports : List Airport) (r : Airport)
    (hmem : r ∈ airports)
    (hlen : r.iata.length = 3)
    (hstrip : pyStrip r.iata = r.iata)
    (hupper : pyUpper r.iata = r.iata)
    (halpha : pyIsalpha r.iata = true)
    (huniq : ∀ r' ∈ airports, r'.iata = r.iata → r' = r) :
    smartSearch (mkAirportSearch airports) r.iata = [r] := by
  have hne : r.iata ≠ [] := by
    intro h; rw [h] at hlen; simp at hlen
  have hlook : dictGet? r.iata (mkAirportSearch airports).iata_index = some r := by
    show dictGet? r.iata (iataIndexOf airports) = some r
    rw [iataIndex_lookup]
    have hrfil : r ∈ airports.filter
        fun a => !a.iata.isEmpty && decide (a.iata = r.iata) := by
      rw [List.mem_filter]
      refine ⟨hmem, ?_⟩
      simp [List.isEmpty_iff, hne]
    have hsome : (airports.filter
        fun a => !a.iata.isEmpty && decide (a.iata = r.iata)).getLast?.isSome = true :=
      List.getLast?_isSome.mpr (List.ne_nil_of_mem hrfil)
    obtain ⟨x, hx⟩ := Option.isSome_iff_exists.mp hsome
    have hxmem := getLast?_mem' hx
    rw [List.mem_filter] at hxmem
    have hxiata : x.iata = r.iata := by
      have := hxmem.2
      simp at this
      exact this.2
    rw [hx, huniq x hxmem.1 hxiata]
  have hcode : searchByCode (mkAirportSearch airports) r.iata = [r] := by
    unfold searchByCode searchByCodeOut
    rw [hupper, hstrip]
    simp [hlen, hlook]
  unfold smartSearch
  rw [hstrip]
  rw [if_neg (by simpa using hne)]
  rw [if_pos ⟨⟨Or.inl hlen, halpha⟩, by rw [hcode]; simp⟩]
  exact hcode

/-- Witness for C1 at a concrete store: a single record with unique
uppercase 3-letter code JFK is found as exactly itself. -/
theorem search_unique_code_singleton_witness :
    jfkW ∈ [jfkW] ∧ jfkW.iata.length = 3 ∧ pyIsalpha jfkW.iata = true ∧
      smartSearch (mkAirportSearch [jfkW]) jfkW.iata = [jfkW] :=
  ⟨by decide, by decide, by decide,
    search_unique_code_singleton [jfkW] jfkW (by decide) (by decide) (by decide)
      (by decide) (by decide) (by decide)⟩

/-- C2 (amended): for every query whose trimmed form is non-empty, the
engine runs code, city, country, name lookup in that order and returns the
result of the first strategy yielding a non-empty set, attempting code
lookup only when the trimmed query has length exactly 3 or 4 and is
entirely alphabetic.  (A blank query short-circuits to [] without running
any strategy — see the counterexample.) -/
theorem smart_search_precedence_chain (S : SearchState) (query : Str)
    (hq : pyStrip query ≠ []) :
    smartSearch S query = firstNonEmpty
      [if ((pyStrip query).length = 3 ∨ (pyStrip query).length = 4) ∧
          pyIsalpha (pyStrip query) = true
        then searchByCode S (pyStrip query) else [],
       searchByCity S (pyStrip query),
       searchByCountry S (pyStrip query),
       searchByName S (pyStrip query)] := by
  by_cases hg : ((pyStrip query).length = 3 ∨ (pyStrip query).length = 4) ∧
      pyIsalpha (pyStrip query) = true <;>
    by_cases hc : searchByCode S (pyStrip query) = [] <;>
    by_cases hcity : searchByCity S (pyStrip query) = [] <;>
    by_cases hco : searchByCountry S (pyStrip query) = [] <;>
    by_cases hn : searchByName S (pyStrip query) = [] <;>
    simp_all [smartSearch, firstNonEmpty]

/-- Counterexample to C2 as stated: for the empty query the city strategy
would yield a non-empty set (the empty string is a substring of every
key), yet smart_search returns [] without consulting any strategy, so
"for every query string the engine returns the result of the first
strategy that yields a non-empty set" fails on blank queries. -/
theorem smart_search_blank_query_counterexample :
    smartSearch (mkAirportSearch [jfkW]) [] = [] ∧
    firstNonEmpty
      [if (([] : Str).length = 3 ∨ ([] : Str).length = 4) ∧ pyIsalpha [] = true
        then searchByCode (mkAirportSearch [jfkW]) [] else [],
       searchByCity (mkAirportSearch [jfkW]) [],
       searchByCountry (mkAirportSearch [jfkW]) [],
       searchByName (mkAirportSearch [jfkW]) []] = [jfkW] ∧
    ([] : List Airport) ≠ [jfkW] := by
  refine ⟨by decide, by decide, by decide⟩

/-- Witness for C2 at a concrete non-blank query. -/
theorem smart_search_precedence_chain_witness :
    pyStrip ("JFK".toList) ≠ [] ∧
      smartSearch (mkAirportSearch [jfkW]) ("JFK".toList) = firstNonEmpty
        [if ((pyStrip ("JFK".toList)).length = 3 ∨
              (pyStrip ("JFK".toList)).length = 4) ∧
            pyIsalpha (pyStrip ("JFK".toList)) = true
          then searchByCode (mkAirportSearch [jfkW]) (pyStrip ("JFK".toList)) else [],
         searchByCity (mkAirportSearch [jfkW]) (pyStrip ("JFK".toList)),
         searchByCountry (mkAirportSearch [jfkW]) (pyStrip ("JFK".toList)),
         searchByName (mkAirportSearch [jfkW]) (pyStrip ("JFK".toList))] :=
  ⟨by decide, smart_search_precedence_chain (mkAirportSearch [jfkW])
    ("JFK".toList) (by decide)⟩

/-- C3 (amended): a row whose primary code is not exactly 3 characters is
dropped from the store entirely (not retained), so every stored record —
and hence every key of the primary-code index — has a primary code of
length exactly 3 (alphabetic is not required); processing never aborts and
yields at most one record per row. -/
theorem process_rows_code_filter :
    ∀ rows : List (List Str),
      (∀ a ∈ processAirportData rows, a.iata.length = 3) ∧
      (∀ k : Str,
        (dictGet? k (iataIndexOf (processAirportData rows))).isSome = true →
          k.length = 3) ∧
      (processAirportData rows).length ≤ rows.length := by
  intro rows
  have h3 : ∀ a ∈ processAirportData rows, a.iata.length = 3 := by
    unfold processAirportData
    apply foldlInv (fun l : List Airport => ∀ a ∈ l, a.iata.length = 3)
    · intro a ha; cases ha
    · intro acc row _ hacc
      by_cases h14 : 14 ≤ row.length
      · rw [if_pos h14]
        by_cases hv : (rowToAirport row).iata ≠ [] ∧ (rowToAirport row).iata.length = 3
        · simp only [if_pos hv]
          intro a ha
          rcases List.mem_append.mp ha with ha | ha
          · exact hacc a ha
          · rw [List.mem_singleton.mp ha]; exact hv.2
        · simp only [if_neg hv]; exact hacc
      · rw [if_neg h14]; exact hacc
  refine ⟨h3, ?_, ?_⟩
  · intro k hk
    rw [iataIndex_lookup] at hk
    obtain ⟨x, hx⟩ := Option.isSome_iff_exists.mp hk
    have hxmem := getLast?_mem' hx
    rw [List.mem_filter] at hxmem
    have hxk : x.iata = k := by
      have := hxmem.2; simp at this; exact this.2
    rw [← hxk]
    exact h3 x hxmem.1
  · unfold processAirportData
    refine le_trans (foldl_length_le _ ?_ rows []) (by simp)
    intro acc row
    by_cases h14 : 14 ≤ row.length
    · rw [if_pos h14]
      by_cases hv : (rowToAirport row).iata ≠ [] ∧ (rowToAirport row).iata.length = 3
      · simp only [if_pos hv, List.length_append, List.length_singleton]
        exact le_refl _
      · simp only [if_neg hv]; exact Nat.le_succ _
    · rw [if_neg h14]; exact Nat.le_succ _

/-- Witness for C3: the 3-character non-alphabetic code 1X2 is an index
key, and the amended theorem instantiated on it yields its length. -/
theorem process_rows_code_filter_witness :
    (dictGet? ('1' :: 'X' :: '2' :: [])
      (iataIndexOf (processAirportData [rowNonAlpha]))).isSome = true ∧
    ('1' :: 'X' :: '2' :: [] : Str).length = 3 :=
  ⟨by decide, (process_rows_code_filter [rowNonAlpha]).2.1
    ('1' :: 'X' :: '2' :: []) (by decide)⟩

/-- Counterexample to C3 as stated: a 14-field row with the length-4 code
ABCD produces an empty store (the record is dropped, not "retained in the
Record Store"), while the 3-character non-alphabetic code 1X2 does appear
as a key of the primary-code index (the code checks only the length, not
alphabeticity). -/
theorem process_rows_counterexample :
    processAirportData [rowLenFour] = [] ∧
    (dictGet? ('1' :: 'X' :: '2' :: [])
      (iataIndexOf (processAirportData [rowNonAlpha]))).isSome = true ∧
    pyIsalpha ('1' :: 'X' :: '2' :: []) = false := by
  refine ⟨by decide, by decide, by decide⟩

/-- C4 (amended): the fuzzy matcher returns only candidates whose
similarity score against the query is at or above the threshold, at most
maxResults of them, ordered by descending score with ties broken by
DESCENDING lexical order of the candidates (nlargest on (score, string)
tuples puts the lexically greater string first on equal scores). -/
theorem fuzzy_matcher_contract :
    ∀ (word : Str) (poss : List Str) (n : Nat) (cutoff : Frac),
      (∀ x ∈ getCloseMatches word poss n cutoff,
        x ∈ poss ∧ fracLe cutoff (seqRatio x word)) ∧
      (getCloseMatches word poss n cutoff).length ≤ n ∧
      (getCloseMatches word poss n cutoff).Pairwise (fun x y =>
        fracLt (seqRatio y word) (seqRatio x word) ∨
          (fracEq (seqRatio x word) (seqRatio y word) ∧ strLt x y = false)) :=
  fun word poss n cutoff =>
    ⟨fun _ hx => gcm_mem hx, gcm_length_le word poss n cutoff,
      gcm_pairwise word poss n cutoff⟩

/-- Counterexample to C4 as stated: candidates abd and abe tie against the
query abc (both score 2/3), the lexical (ascending) order is [abd, abe],
but the matcher returns [abe, abd] — the lexically greater candidate
first. -/
theorem fuzzy_matcher_tie_counterexample :
    getCloseMatches ('a' :: 'b' :: 'c' :: [])
      [('a' :: 'b' :: 'd' :: []), ('a' :: 'b' :: 'e' :: [])] 5 (3, 5) =
      [('a' :: 'b' :: 'e' :: []), ('a' :: 'b' :: 'd' :: [])] ∧
    fracEq (seqRatio ('a' :: 'b' :: 'd' :: []) ('a' :: 'b' :: 'c' :: []))
      (seqRatio ('a' :: 'b' :: 'e' :: []) ('a' :: 'b' :: 'c' :: [])) ∧
    strLt ('a' :: 'b' :: 'd' :: []) ('a' :: 'b' :: 'e' :: []) = true ∧
    [('a' :: 'b' :: 'e' :: []), ('a' :: 'b' :: 'd' :: [])] ≠
      [('a' :: 'b' :: 'd' :: []), ('a' :: 'b' :: 'e' :: [])] := by
  refine ⟨by decide, by decide, by decide, by decide⟩

/-- Witness for C4: the returned candidate abd for query abc is in the
pool and scores at or above the 0.6 cutoff. -/
theorem fuzzy_matcher_contract_witness :
    ('a' :: 'b' :: 'd' :: []) ∈ [('a' :: 'b' :: 'd' :: [])] ∧
      fracLe (3, 5) (seqRatio ('a' :: 'b' :: 'd' :: []) ('a' :: 'b' :: 'c' :: [])) :=
  (fuzzy_matcher_contract ('a' :: 'b' :: 'c' :: [])
    [('a' :: 'b' :: 'd' :: [])] 5 (3, 5)).1 ('a' :: 'b' :: 'd' :: []) (by decide)

/-- C5 (amended): country lookup first performs an exact case-sensitive
match against the country index and returns that bucket; only when that
misses does it fuzzy-match against the country keys, and then it returns
the concatenation of the buckets of ALL returned fuzzy matches — up to
three of them, in rank order — not just the top match's bucket. -/
theorem country_lookup_contract (S : SearchState) (c : Str) :
    (∀ b, dictGet? (pyStrip c) S.country_index = some b → searchByCountry S c = b) ∧
    (dictGet? (pyStrip c) S.country_index = none →
      searchByCountry S c =
        concatAll ((getCloseMatches (pyStrip c)
          (S.country_index.map Prod.fst) 3 (3, 5)).map
            fun m => (dictGet? m S.country_index).getD []) ∧
      (getCloseMatches (pyStrip c) (S.country_index.map Prod.fst) 3 (3, 5)).length ≤ 3) := by
  constructor
  · intro b hb
    simp only [searchByCountry, hb]
  · intro hnone
    refine ⟨?_, gcm_length_le _ _ _ _⟩
    simp only [searchByCountry, hnone]
    have := foldl_append_all (fun m => (dictGet? m S.country_index).getD [])
      (getCloseMatches (pyStrip c) (S.country_index.map Prod.fst) 3 (3, 5)) []
    simpa using this

/-- Counterexample to C5 as stated: with countries abcdx and abcdy and the
missing query abcd, both keys fuzzy-match; the top match is abcdy with
bucket [aptY], but search_by_country returns [aptY, aptX], including the
bucket of the lower-ranked match abcdx. -/
theorem country_fuzzy_counterexample :
    searchByCountry (mkAirportSearch [aptX, aptY]) ("abcd".toList) = [aptY, aptX] ∧
    getCloseMatches ("abcd".toList)
      ((mkAirportSearch [aptX, aptY]).country_index.map Prod.fst) 3 (3, 5) =
      ["abcdy".toList, "abcdx".toList] ∧
    (dictGet? ("abcdy".toList)
      (mkAirportSearch [aptX, aptY]).country_index).getD [] = [aptY] ∧
    [aptY, aptX] ≠ [aptY] := by
  refine ⟨by decide, by decide, by decide, by decide⟩

/-- Witness for C5 at a concrete exact hit. -/
theorem country_lookup_contract_witness :
    dictGet? (pyStrip ("United States".toList))
      (mkAirportSearch [jfkW]).country_index = some [jfkW] ∧
    searchByCountry (mkAirportSearch [jfkW]) ("United States".toList) = [jfkW] :=
  ⟨by decide, (country_lookup_contract (mkAirportSearch [jfkW])
    ("United States".toList)).1 [jfkW] (by decide)⟩

/-- On a code miss (neither index hits), search_by_code returns the empty
match list and prints the fuzzy suggestions computed over the union of the
code keys; the printed list is the second component of the modelled
output. -/
theorem searchByCodeOut_miss (S : SearchState) (q : Str)
    (h3 : ¬ ((pyStrip (pyUpper q)).length = 3 ∧
      (dictGet? (pyStrip (pyUpper q)) S.iata_index).isSome = true))
    (h4 : ¬ ((pyStrip (pyUpper q)).length = 4 ∧
      (dictGet? (pyStrip (pyUpper q)) S.icao_index).isSome = true)) :
    searchByCodeOut S q =
      ([], getCloseMatches (pyStrip (pyUpper q))
        (S.iata_index.map Prod.fst ++ S.icao_index.map Prod.fst) 5 (3, 5)) := by
  have e1 : (if (pyStrip (pyUpper q)).length = 3 then
      dictGet? (pyStrip (pyUpper q)) S.iata_index else none) = none := by
    by_cases h : (pyStrip (pyUpper q)).length = 3
    · rw [if_pos h]
      cases hev : dictGet? (pyStrip (pyUpper q)) S.iata_index with
      | none => rfl
      | some a => exact absurd ⟨h, by rw [hev]; rfl⟩ h3
    · rw [if_neg h]
  have e2 : (if (pyStrip (pyUpper q)).length = 4 then
      dictGet? (pyStrip (pyUpper q)) S.icao_index else none) = none := by
    by_cases h : (pyStrip (pyUpper q)).length = 4
    · rw [if_pos h]
      cases hev : dictGet? (pyStrip (pyUpper q)) S.icao_index with
      | none => rfl
      | some a => exact absurd ⟨h, by rw [hev]; rfl⟩ h4
    · rw [if_neg h]
  simp only [searchByCodeOut, e1, e2]

/-- C6: a code query missing both indexes yields the empty match list
together with the fuzzy suggestion list as a separate (printed) side
output, and two misses are the same outcome exactly when their suggestion
lists agree — a miss with suggestions is distinguishable from a miss with
none. -/
theorem code_miss_distinct_outcomes (S : SearchState) (q q' : Str)
    (h3 : ¬ ((pyStrip (pyUpper q)).length = 3 ∧
      (dictGet? (pyStrip (pyUpper q)) S.iata_index).isSome = true))
    (h4 : ¬ ((pyStrip (pyUpper q)).length = 4 ∧
      (dictGet? (pyStrip (pyUpper q)) S.icao_index).isSome = true))
    (h3' : ¬ ((pyStrip (pyUpper q')).length = 3 ∧
      (dictGet? (pyStrip (pyUpper q')) S.iata_index).isSome = true))
    (h4' : ¬ ((pyStrip (pyUpper q')).length = 4 ∧
      (dictGet? (pyStrip (pyUpper q')) S.icao_index).isSome = true)) :
    searchByCodeOut S q =
      ([], getCloseMatches (pyStrip (pyUpper q))
        (S.iata_index.map Prod.fst ++ S.icao_index.map Prod.fst) 5 (3, 5)) ∧
    (searchByCodeOut S q = searchByCodeOut S q' ↔
      getCloseMatches (pyStrip (pyUpper q))
        (S.iata_index.map Prod.fst ++ S.icao_index.map Prod.fst) 5 (3, 5) =
      getCloseMatches (pyStrip (pyUpper q'))
        (S.iata_index.map Prod.fst ++ S.icao_index.map Prod.fst) 5 (3, 5)) := by
  refine ⟨searchByCodeOut_miss S q h3 h4, ?_⟩
  rw [searchByCodeOut_miss S q h3 h4, searchByCodeOut_miss S q' h3' h4']
  simp

/-- Witness for C6 at a concrete missing code. -/
theorem code_miss_distinct_outcomes_witness :
    searchByCodeOut (mkAirportSearch [jfkW]) ("JQX".toList) =
      ([], getCloseMatches (pyStrip (pyUpper ("JQX".toList)))
        ((mkAirportSearch [jfkW]).iata_index.map Prod.fst ++
          (mkAirportSearch [jfkW]).icao_index.map Prod.fst) 5 (3, 5)) :=
  (code_miss_distinct_outcomes (mkAirportSearch [jfkW]) ("JQX".toList)
    ("ZZZZ".toList) (by decide) (by decide) (by decide) (by decide)).1

/-- C7 (amended): when the main dataset file is absent, load_data prints an
error and terminates the process with exit status 1 — a process-level
abort, not a constructed error value returned to the caller — and
consequently no loaded search state (the dependent component) is ever
produced. -/
theorem load_missing_files_exits (fs : DataFiles)
    (h : fs.airport_data = none) :
    load_data fs = LoadOutcome.exited 1 ∧
      ∀ s, load_data fs ≠ LoadOutcome.ok s := by
  unfold load_data
  rw [h]
  exact ⟨rfl, fun s h' => by cases h'⟩

/-- Counterexample to C7 as stated: with every data file absent, load_data
ends in exit(1) — the process-abort outcome, distinct from every
successfully constructed state — whereas the load contract the claim
describes would produce the constructed value error(MissingSource). -/
theorem load_missing_files_counterexample :
    load_data emptyFiles = LoadOutcome.exited 1 ∧
    loadAsSpecified emptyFiles = Except.error LoadError.missingSource ∧
    LoadOutcome.exited 1 ≠ LoadOutcome.ok (mkAirportSearch []) := by
  refine ⟨rfl, rfl, by decide⟩

/-- Witness for C7 on the empty filesystem. -/
theorem load_missing_files_exits_witness :
    emptyFiles.airport_data = none ∧
      load_data emptyFiles = LoadOutcome.exited 1 ∧
      load_data emptyFiles ≠ LoadOutcome.ok (mkAirportSearch []) :=
  ⟨rfl, (load_missing_files_exits emptyFiles rfl).1,
    (load_missing_files_exits emptyFiles rfl).2 (mkAirportSearch [])⟩

/-- C9 (amended): on the exact paths every stage returns its full match
set uncapped in the underlying index's natural order — the city stage
concatenates every matching bucket in index order, the name stage returns
every matching record in store order, an exact country hit returns the
whole bucket — but on the FUZZY fallback paths the city and country
stages return the concatenation of the matched keys' full buckets in the
MATCHER'S RANK order (over at most 10 city keys / 3 country keys, the
matcher's parameters), not the index's order; the country listing
(get_country_airports) returns a permutation of the full bucket of the
exact hit, or of the single top fuzzy match, sorted ascending by city
name. -/
theorem stage_results_contract (S : SearchState) (q c : Str)
    (b : List Airport) (m : Str) (ms : List Str) :
    (cityExact S (pyStrip q) ≠ [] →
      searchByCity S q = concatAll ((S.city_index.filter fun kv =>
        containsSub (pyLower (pyStrip q)) (pyLower kv.1)).map Prod.snd)) ∧
    (cityExact S (pyStrip q) = [] →
      searchByCity S q = concatAll ((getCloseMatches (pyStrip q)
        (S.city_index.map Prod.fst) 10 (3, 5)).map
          fun k => (dictGet? k S.city_index).getD [])) ∧
    searchByName S q = S.airports.filter
      (fun a => containsSub (pyStrip (pyLower q)) (pyLower a.name)) ∧
    (dictGet? (pyStrip c) S.country_index = some b → searchByCountry S c = b) ∧
    (dictGet? (pyStrip c) S.country_index = none →
      searchByCountry S c = concatAll ((getCloseMatches (pyStrip c)
        (S.country_index.map Prod.fst) 3 (3, 5)).map
          fun k => (dictGet? k S.country_index).getD [])) ∧
    (dictGet? c S.country_index = some b →
      List.Perm (getCountryAirports S c) b ∧
      (getCountryAirports S c).Pairwise (fun x y => strLt y.city x.city = false)) ∧
    (dictGet? c S.country_index = none →
      getCloseMatches c (S.country_index.map Prod.fst) 1 (3, 5) = m :: ms →
      List.Perm (getCountryAirports S c) ((dictGet? m S.country_index).getD []) ∧
      (getCountryAirports S c).Pairwise (fun x y => strLt y.city x.city = false)) := by
  refine ⟨?_, ?_, ?_, ?_, ?_, ?_, ?_⟩
  · intro hne
    simp only [searchByCity, if_neg hne]
    unfold cityExact
    have := foldl_cond_append
      (fun kv : Str × List Airport =>
        containsSub (pyLower (pyStrip q)) (pyLower kv.1))
      (fun kv => kv.2) S.city_index []
    simpa using this
  · intro hempty
    simp only [searchByCity, if_pos hempty]
    have := foldl_append_all (fun k => (dictGet? k S.city_index).getD [])
      (getCloseMatches (pyStrip q) (S.city_index.map Prod.fst) 10 (3, 5)) []
    simpa using this
  · unfold searchByName
    have := foldl_cond_append
      (fun a : Airport => containsSub (pyStrip (pyLower q)) (pyLower a.name))
      (fun a => [a]) S.airports []
    rw [this]
    simp [concatAll_map_singleton]
  · intro hb
    simp only [searchByCountry, hb]
  · intro hnone
    simp only [searchByCountry, hnone]
    have := foldl_append_all (fun k => (dictGet? k S.country_index).getD [])
      (getCloseMatches (pyStrip c) (S.country_index.map Prod.fst) 3 (3, 5)) []
    simpa using this
  · intro hb
    simp only [getCountryAirports, hb]
    exact ⟨sortByCity_perm b, sortByCity_pairwise b⟩
  · intro hnone hm
    simp only [getCountryAirports, hnone, hm]
    exact ⟨sortByCity_perm _, sortByCity_pairwise _⟩

/-- Counterexample to C9 as stated: for the query abcdz the exact city
pass is empty and both city keys fuzzy-match, so the stage returns the
buckets in fuzzy-rank order [aptCD, aptCQ] — the reverse of the index's
natural (insertion) order, whose keys are [abcq-z, abcd-z] with buckets
concatenating to [aptCQ, aptCD]; the ordering of a result set therefore
does not always follow the underlying index's natural order. -/
theorem city_fuzzy_order_counterexample :
    cityExact (mkAirportSearch [aptCQ, aptCD]) (pyStrip ("abcdz".toList)) = [] ∧
    (mkAirportSearch [aptCQ, aptCD]).city_index.map Prod.fst =
      ["abcq, z".toList, "abcd, z".toList] ∧
    searchByCity (mkAirportSearch [aptCQ, aptCD]) ("abcdz".toList) = [aptCD, aptCQ] ∧
    concatAll ((mkAirportSearch [aptCQ, aptCD]).city_index.map Prod.snd) =
      [aptCQ, aptCD] ∧
    [aptCD, aptCQ] ≠ [aptCQ, aptCD] := by
  refine ⟨by decide, by decide, by decide, by decide, by decide⟩

/-- Witness for C9 exercising the fuzzy city path on one concrete store
and the exact country-listing path on another. -/
theorem stage_results_contract_witness :
    cityExact (mkAirportSearch [aptCQ, aptCD]) (pyStrip ("abcdz".toList)) = [] ∧
    searchByCity (mkAirportSearch [aptCQ, aptCD]) ("abcdz".toList) =
      concatAll ((getCloseMatches (pyStrip ("abcdz".toList))
        ((mkAirportSearch [aptCQ, aptCD]).city_index.map Prod.fst) 10 (3, 5)).map
          fun k => (dictGet? k (mkAirportSearch [aptCQ, aptCD]).city_index).getD []) ∧
    dictGet? ("United States".toList)
      (mkAirportSearch [jfkW]).country_index = some [jfkW] ∧
    List.Perm (getCountryAirports (mkAirportSearch [jfkW])
      ("United States".toList)) [jfkW] :=
  ⟨by decide,
    (stage_results_contract (mkAirportSearch [aptCQ, aptCD]) ("abcdz".toList)
      [] [] [] []).2.1 (by decide),
    by decide,
    ((stage_results_contract (mkAirportSearch [jfkW]) [] ("United States".toList)
      [jfkW] [] []).2.2.2.2.2.1 (by decide)).1⟩

/-- The haversine kilometre distance is symmetric in its two coordinate
pairs: the squared sines are even in the coordinate differences and the
cosine product commutes. -/
theorem haversineKm_symm (l1 o1 l2 o2 : ℝ) :
    haversineKm l1 o1 l2 o2 = haversineKm l2 o2 l1 o1 := by
  unfold haversineKm toRadians
  have h1 : (l1 - l2) * Real.pi / 180 / 2 = -((l2 - l1) * Real.pi / 180 / 2) := by
    ring
  have h2 : (o1 - o2) * Real.pi / 180 / 2 = -((o2 - o1) * Real.pi / 180 / 2) := by
    ring
  rw [h1, h2, Real.sin_neg, Real.sin_neg]
  ring_nf

/-- C10: the Geo Engine's great-circle distance is symmetric in both the
kilometre and the mile component (haversine on latitude/longitude with
Earth radius 6371 km, miles = km * 0.621371). -/
theorem distance_symmetric : ∀ a b : Airport, distance a b = distance b a := by
  intro a b
  simp only [distance]
  rw [haversineKm_symm]

end AirportSystem
